import Mathlib

/-!
Verification development for the `testSTT` batch speech-to-text scripts
(`stt_clova.py`, `stt_google.py`, `stt_vosk.py`, `stt_whisper.py`).

The Python sources are shallowly embedded: pure helpers become Lean
functions, the directory listing is a `List String` of filenames (in glob
enumeration order), HTTP responses and backend replies are explicit data,
and Python exceptions surface as `Option`/distinguished outcome values.
-/

namespace STT

/-! ## Python string primitives -/

/-- The whitespace characters stripped by Python's `str.strip()`
(ASCII subset: space, tab, newline, carriage return, vertical tab, form feed). -/
def pyIsSpace (c : Char) : Bool :=
  c = ' ' || c = '\t' || c = '\n' || c = '\r' || c = '\x0B' || c = '\x0C'

/-- Python `str.strip()` on a character list: drop whitespace from both ends. -/
def pyStripChars (l : List Char) : List Char :=
  ((l.dropWhile pyIsSpace).reverse.dropWhile pyIsSpace).reverse

/-- Python `str.strip()`. -/
def pyStrip (s : String) : String :=
  ⟨pyStripChars s.data⟩

/-- Python `sep.join` on character lists. -/
def joinData (sep : List Char) : List (List Char) → List Char
  | [] => []
  | [x] => x
  | x :: y :: rest => x ++ sep ++ joinData sep (y :: rest)

/-- Python `sep.join(xs)`. -/
def sjoin (sep : String) (xs : List String) : String :=
  ⟨joinData sep.data (xs.map String.data)⟩

/-! ## Python `int()` parsing (base 10)

`int(s)` accepts optional surrounding whitespace, an optional sign, and a
nonempty digit string in which single underscores may appear strictly
between digits.  Anything else raises `ValueError`, modelled as `none`. -/

/-- Digit-string tail: digits, where each `'_'` must be followed by a digit. -/
def intDigitsRest : List Char → Bool
  | [] => true
  | '_' :: [] => false
  | '_' :: d :: cs => d.isDigit && intDigitsRest cs
  | c :: cs => c.isDigit && intDigitsRest cs

/-- A valid unsigned `int()` body: nonempty, starts with a digit,
underscores only between digits. -/
def intDigitsOk : List Char → Bool
  | [] => false
  | c :: cs => c.isDigit && intDigitsRest cs

/-- Numeric value of a digit string (underscores removed beforehand). -/
def digitsToNat (l : List Char) : Nat :=
  l.foldl (fun n c => 10 * n + (c.toNat - 48)) 0

/-- Python `int(s)` for base 10 on a character list; `none` models `ValueError`. -/
def pyIntOfChars (l : List Char) : Option Int :=
  let t := pyStripChars l
  match t with
  | '+' :: rest =>
      if intDigitsOk rest then some (Int.ofNat (digitsToNat (rest.filter (· != '_')))) else none
  | '-' :: rest =>
      if intDigitsOk rest then some (-(Int.ofNat (digitsToNat (rest.filter (· != '_'))))) else none
  | _ =>
      if intDigitsOk t then some (Int.ofNat (digitsToNat (t.filter (· != '_')))) else none

/-! ## `pathlib.Path` pieces -/

/-- Scan a reversed filename for the last `'.'` of the original name;
`some rest` is the reversed stem, `none` when the last dot is the first
character (leading dot ⇒ no suffix) or there is no dot. -/
def stemRevAux : List Char → Option (List Char)
  | [] => none
  | '.' :: rest => if rest.isEmpty then none else some rest
  | _ :: rest => stemRevAux rest

/-- Python `pathlib.Path(name).stem`: the name without its final suffix.  The
suffix is taken from the last `'.'` provided it is neither the first nor
the last character of the name. -/
def pathStem (s : String) : String :=
  match s.data.reverse with
  | '.' :: _ => s
  | r =>
    match stemRevAux r with
    | some rest => ⟨rest.reverse⟩
    | none => s

/-- Python `stem.split("_", 1)[1]`: the part after the first underscore;
`none` models the `IndexError` when no underscore is present. -/
def splitFirstUnderscore : List Char → Option (List Char)
  | [] => none
  | '_' :: rest => some rest
  | _ :: rest => splitFirstUnderscore rest

/-! ## ClipSelector (`parse_clip_id` / `select_targets`, identical in all
four scripts) -/

/-- Source `parse_clip_id`: `int(path.stem.split("_", 1)[1])`, with
`IndexError`/`ValueError` caught and turned into `None`. -/
def parse_clip_id (name : String) : Option Int :=
  (splitFirstUnderscore (pathStem name).data).bind pyIntOfChars

/-- The glob pattern `MYR_*.mp4` (POSIX, case-sensitive): the name starts
with `MYR_`, ends with `.mp4`, and the two literal parts do not overlap. -/
def globMYRmp4 (name : String) : Bool :=
  List.isPrefixOf "MYR_".data name.data
    && List.isPrefixOf ".mp4".data.reverse name.data.reverse
    && decide (8 ≤ name.data.length)

/-- The `numbered` list built by `select_targets`: glob-matched files whose
parsed clip id is defined and not below `start_id`, paired with that id,
in directory-enumeration order. -/
def numberedTargets (dir : List String) (start_id : Int) : List (Int × String) :=
  (dir.filter globMYRmp4).filterMap (fun n =>
    match parse_clip_id n with
    | none => none
    | some id => if id < start_id then none else some (id, n))

/-- Ordering used by `numbered.sort(key=lambda item: item[0])`. -/
def keyLe (x y : Int × String) : Prop := x.1 ≤ y.1

instance : DecidableRel keyLe := fun x y => inferInstanceAs (Decidable (x.1 ≤ y.1))

/-- Stable insertion: place `a` before the first element with a strictly
larger key (Python's `list.sort` is stable). -/
def insertPair (a : Int × String) : List (Int × String) → List (Int × String)
  | [] => [a]
  | b :: l => if a.1 ≤ b.1 then a :: b :: l else b :: insertPair a l

/-- Stable sort by clip id, matching `numbered.sort(key=lambda item: item[0])`. -/
def sortPairs : List (Int × String) → List (Int × String)
  | [] => []
  | a :: l => insertPair a (sortPairs l)

/-- Source `select_targets(start_id, limit)`: the directory is passed explicitly as
the glob-enumeration listing.  Sort the numbered candidates by id and keep
the first `limit` paths (`numbered[:limit]`). -/
def select_targets (dir : List String) (start_id : Int) (limit : Nat) : List String :=
  ((sortPairs (numberedTargets dir start_id)).take limit).map Prod.snd

/-! ## JSON values and Python dict semantics

`requests.Response.json()` payloads are weakly typed; we model them as a
JSON value tree.  Python dicts are association lists with unique keys:
assignment updates an existing key in place, otherwise appends. -/

inductive JVal where
  | str (s : String)
  | num (n : Int)
  | bool (b : Bool)
  | null
  | arr (xs : List JVal)
  | obj (kvs : List (String × JVal))

instance (l : List JVal) : Decidable (l = []) :=
  match l with
  | [] => isTrue rfl
  | _ :: _ => isFalse (by simp)

/-- Python truthiness of a JSON value (`if segment.get("text"):`). -/
def jTruthy : JVal → Bool
  | .str s => !(s.data.isEmpty)
  | .num n => decide (n ≠ 0)
  | .bool b => b
  | .null => false
  | .arr xs => !xs.isEmpty
  | .obj kvs => !kvs.isEmpty

/-- Python `dict.get(key)`: first (only, for a well-formed dict) binding of `key`. -/
def jGet : List (String × JVal) → String → Option JVal
  | [], _ => none
  | kv :: rest, key => if kv.1 = key then some kv.2 else jGet rest key

/-- Assignment `d[k] = v` on a Python dict: update in place when the key exists
(keeping its position), else append. -/
def dictSet (d : List (String × JVal)) (k : String) (v : JVal) :
    List (String × JVal) :=
  if (jGet d k).isSome then d.map (fun kv => if kv.1 = k then (kv.1, v) else kv)
  else d ++ [(k, v)]

/-- Merge `{**d, **e}`: apply `e`'s entries, in order, on top of `d`. -/
def dictUpdate (d : List (String × JVal)) : List (String × JVal) → List (String × JVal)
  | [] => d
  | kv :: rest => dictUpdate (dictSet d kv.1 kv.2) rest

/-- Hexadecimal digit (lowercase), for `\uXXXX` escapes. -/
def hexDigit (n : Nat) : Char :=
  if n < 10 then Char.ofNat (48 + n) else Char.ofNat (87 + n)

/-- Python `json.dumps` escaping of one character (`ensure_ascii=False`: non-ASCII
passes through; quotes, backslash and control characters are escaped). -/
def jsonEscapeChar (c : Char) : String :=
  if c = '"' then "\\\""
  else if c = '\\' then "\\\\"
  else if c = '\n' then "\\n"
  else if c = '\t' then "\\t"
  else if c = '\r' then "\\r"
  else if c = '\x08' then "\\b"
  else if c = '\x0C' then "\\f"
  else if c.toNat < 32 then "\\u00" ++ ⟨[hexDigit (c.toNat / 16), hexDigit (c.toNat % 16)]⟩
  else String.singleton c

/-- Python `json.dumps` escaping of a string body. -/
def jsonEscape (s : String) : String :=
  String.join (s.data.map jsonEscapeChar)

mutual

/-- Python `json.dumps(v, ensure_ascii=False)` with default separators.  (The
source's fallback uses `indent=2`; only the dump's non-emptiness and
structure matter to the claims, so the compact rendering is used.) -/
def pyJsonDumps : JVal → String
  | .str s => "\"" ++ jsonEscape s ++ "\""
  | .num n => toString n
  | .bool b => if b then "true" else "false"
  | .null => "null"
  | .arr xs => "[" ++ dumpsArr xs ++ "]"
  | .obj kvs => "\x7b" ++ dumpsObj kvs ++ "\x7d"

/-- Comma-separated dump of array elements. -/
def dumpsArr : List JVal → String
  | [] => ""
  | [x] => pyJsonDumps x
  | x :: y :: rest => pyJsonDumps x ++ ", " ++ dumpsArr (y :: rest)

/-- Comma-separated dump of object entries. -/
def dumpsObj : List (String × JVal) → String
  | [] => ""
  | [kv] => "\"" ++ jsonEscape kv.1 ++ "\": " ++ pyJsonDumps kv.2
  | kv :: kv₂ :: rest =>
      "\"" ++ jsonEscape kv.1 ++ "\": " ++ pyJsonDumps kv.2 ++ ", "
        ++ dumpsObj (kv₂ :: rest)

end

/-! ## HTTP responses and the Clova transcript extractor -/

/-- A `requests.Response` as the Clova code observes it: status code,
reason phrase, body text, and the result of `response.json()`
(`none` models a `ValueError` from undecodable JSON). -/
structure HttpResponse where
  status : Nat
  reason : String
  body : String
  jsonBody : Option JVal

/-- Property `response.ok`: true for status codes below 400. -/
def respOk (r : HttpResponse) : Bool :=
  r.status < 400

/-- The direct-text key names tried by `extract_transcript`, in priority
order. -/
def directTextKeys : List String :=
  ["text", "textData", "result", "transcript"]

/-- The key loop of `extract_transcript`: first key bound to a string that
is nonempty after stripping wins, returned stripped. -/
def directLoop (payload : List (String × JVal)) : List String → Option String
  | [] => none
  | k :: ks =>
    match jGet payload k with
    | some (JVal.str t) => if pyStrip t = "" then directLoop payload ks else some (pyStrip t)
    | _ => directLoop payload ks

/-- The segment comprehension: `[segment.get("text", "") for segment in
segments if isinstance(segment, dict) and segment.get("text")]`. -/
def segLines (segs : List JVal) : List JVal :=
  segs.filterMap (fun s =>
    match s with
    | JVal.obj kvs =>
        if jTruthy ((jGet kvs "text").getD JVal.null) then
          some ((jGet kvs "text").getD (JVal.str ""))
        else none
    | _ => none)

/-- The `join` type check: joining succeeds only when every element
is a string (`none` models the `TypeError` otherwise). -/
def strListOfJVals : List JVal → Option (List String)
  | [] => some []
  | JVal.str s :: rest => (strListOfJVals rest).map (s :: ·)
  | _ :: _ => none

/-- Source `extract_transcript(response)`.  `none` models an uncaught Python
exception (`AttributeError` on a non-dict payload, `TypeError` on joining
non-string segment texts); every other path returns a string. -/
def extract_transcript (r : HttpResponse) : Option String :=
  match r.jsonBody with
  | none => some (pyStrip r.body)
  | some (JVal.obj payload) =>
    match directLoop payload directTextKeys with
    | some t => some t
    | none =>
      match jGet payload "segments" with
      | some (JVal.arr segs) =>
        match segLines segs with
        | [] => some (pyJsonDumps (JVal.obj payload))
        | lines =>
          match strListOfJVals lines with
          | some ts => some (pyStrip (sjoin "\n" ts))
          | none => none
      | _ => some (pyJsonDumps (JVal.obj payload))
  | some _ => none

/-- Source `_format_error(response)`: the decoded JSON body dumped when decodable,
else the stripped body text when nonempty, else the reason phrase. -/
def format_error (r : HttpResponse) : String :=
  match r.jsonBody with
  | some payload => pyJsonDumps payload
  | none => if pyStrip r.body = "" then r.reason else pyStrip r.body

/-- Outcome of `run_clova` for one clip: the transcript written to disk, or
the `SystemExit` message (fatal for the whole run, the request is issued
exactly once and never retried). -/
inductive ClovaOutcome where
  | success (text : String)
  | fatal (msg : String)

/-- Source `run_clova(client, clip)` given the single HTTP response the upload
produced.  `none` models an uncaught exception inside
`extract_transcript`. -/
def run_clova (clipName : String) (r : HttpResponse) : Option ClovaOutcome :=
  if respOk r then (extract_transcript r).map ClovaOutcome.success
  else
    some (ClovaOutcome.fatal
      ("Clova Speech request failed for " ++ clipName ++ " (" ++ toString r.status
        ++ " " ++ r.reason ++ "): " ++ format_error r))


/-! ## `ClovaSpeechClient.req_upload` request parameter block -/

/-- The JSON `params` block built by `req_upload`: the fixed base
(`language`, `completion`) updated by the client's `default_params`
(`{**base, **self.default_params}`), then `wordAlignment`/`fullText`
defaults filled in only when the key is still absent, then the optional
arguments (a `None` argument, or a falsy list for
`forbiddens`/`boostings`, adds nothing). -/
def req_upload_params (default_params : List (String × JVal)) (completion : String)
    (callback userdata : Option String) (forbiddens : Option (List String))
    (boostings : Option (List JVal)) (word_alignment full_text : Bool)
    (diarization sed : Option JVal) : List (String × JVal) :=
  let body := dictUpdate [("language", JVal.str "ko-KR"), ("completion", JVal.str completion)]
    default_params
  let body := if (jGet body "wordAlignment").isSome then body
    else dictSet body "wordAlignment" (JVal.bool word_alignment)
  let body := if (jGet body "fullText").isSome then body
    else dictSet body "fullText" (JVal.bool full_text)
  let body := match callback with
    | some c => dictSet body "callback" (JVal.str c)
    | none => body
  let body := match userdata with
    | some u => dictSet body "userdata" (JVal.str u)
    | none => body
  let body := match forbiddens with
    | some l => if l.isEmpty then body else dictSet body "forbiddens" (JVal.arr (l.map JVal.str))
    | none => body
  let body := match boostings with
    | some l => if l.isEmpty then body else dictSet body "boostings" (JVal.arr l)
    | none => body
  let body := match diarization with
    | some d => dictSet body "diarization" d
    | none => body
  let body := match sed with
    | some v => dictSet body "sed" v
    | none => body
  body

/-- Class `ClovaSpeechClient`: the state stored by `__init__`. -/
structure ClovaSpeechClient where
  invoke_url : String
  secret : String
  default_params : List (String × JVal)

/-- Constructor `ClovaSpeechClient.__init__`: `dict(default_params) if default_params
else {}` — the mapping is copied (value semantics here), and a falsy
argument (absent or empty) yields the empty dict. -/
def ClovaSpeechClient.init (invoke_url secret : String)
    (default_params : Option (List (String × JVal))) : ClovaSpeechClient :=
  ⟨invoke_url, secret,
    match default_params with
    | some d => d
    | none => []⟩

/-- Method `req_upload`: builds the request parameter block in a fresh dict; the
method never assigns to `self`, so the resulting client state is returned
unchanged alongside the parameter block of the issued request. -/
def ClovaSpeechClient.req_upload (c : ClovaSpeechClient) (file : String)
    (completion : String) (callback userdata : Option String)
    (forbiddens : Option (List String)) (boostings : Option (List JVal))
    (word_alignment full_text : Bool) (diarization sed : Option JVal) :
    ClovaSpeechClient × List (String × JVal) :=
  let _ := file
  (c, req_upload_params c.default_params completion callback userdata forbiddens
    boostings word_alignment full_text diarization sed)

/-- A sequence of `req_upload` calls (clip file and completion mode per
call, remaining arguments as `run_clova` passes them), threading the
client state through and collecting each call's parameter block. -/
def req_upload_callSeq (c : ClovaSpeechClient) :
    List (String × String) → ClovaSpeechClient × List (List (String × JVal))
  | [] => (c, [])
  | fc :: rest =>
    let r := c.req_upload fc.1 fc.2 none none none none true true none none
    let s := req_upload_callSeq r.1 rest
    (s.1, r.2 :: s.2)

/-! ## Google Cloud Speech backend (`stt_google.py`) -/

/-- Constant `USE_LONG_RUNNING` from the source: the long-running operation path is
the configured mode. -/
def USE_LONG_RUNNING : Bool := true

/-- The response-collection loop of `run_google_speech`: each result's
first alternative (`result.alternatives[0]` — `none` models the
`IndexError` on a result with no alternatives), stripped, kept only when
nonempty. -/
def googleLines : List (List String) → Option (List String)
  | [] => some []
  | alts :: rest =>
    match alts with
    | [] => none
    | t :: _ =>
      (googleLines rest).map (fun ls => if pyStrip t = "" then ls else pyStrip t :: ls)

/-- The transcript `run_google_speech` writes: collected lines joined by
newlines and stripped, with the sentinel substituted when empty. -/
def google_transcript (results : List (List String)) : Option String :=
  (googleLines results).map (fun lines =>
    let transcript := pyStrip (sjoin "\n" lines)
    if transcript = "" then "[No transcript returned]" else transcript)

/-- A long-running recognize operation: how many time units until its
result is available, and the response results (each a list of alternative
transcripts). -/
structure GoogleOperation where
  delay : Nat
  results : List (List String)

/-- Outcome of `run_google_speech`: the success transcript, or the
`concurrent.futures.TimeoutError` raised by `operation.result(timeout=900)`
when the bounded wait is exceeded. -/
inductive GoogleOutcome where
  | timeout
  | success (text : String)
deriving DecidableEq

/-- Source `run_google_speech` for one clip: on the long-running path the result
is awaited with `timeout=900`; exceeding it raises (modelled as
`GoogleOutcome.timeout`).  `none` models an `IndexError` while reading
`result.alternatives[0]`. -/
def run_google_speech (useLong : Bool) (op : GoogleOperation) : Option GoogleOutcome :=
  if useLong then
    if 900 < op.delay then some GoogleOutcome.timeout
    else (google_transcript op.results).map GoogleOutcome.success
  else
    (google_transcript op.results).map GoogleOutcome.success

/-- The first alternative of every result (`none` when some result has no
alternatives). -/
def firstAlts : List (List String) → Option (List String)
  | [] => some []
  | alts :: rest =>
    match alts with
    | [] => none
    | t :: _ => (firstAlts rest).map (t :: ·)

/-- The transcript as claim C7's words describe it: the concatenation of
every returned result segment's first alternative, trimmed, joined by
newlines, with empty segments skipped.  Stated from the claim, to be
compared against `run_google_speech`. -/
def specGoogleConcat (results : List (List String)) : Option String :=
  (firstAlts results).map (fun fs =>
    sjoin "\n" ((fs.map pyStrip).filter (fun s => !(s == ""))))

/-! ## Vosk backend (`stt_vosk.py`) -/

/-- Source `transcribe(audio_wav, recognizer)` as a function of the recognizer's
outputs: `pieces` are the accepted-waveform partial texts, `final` the
`FinalResult` text; falsy (empty) pieces are dropped, the rest joined by
spaces and stripped. -/
def vosk_transcribe (pieces : List String) (final : String) : String :=
  pyStrip (sjoin " " ((pieces ++ [final]).filter (fun s => !(s == ""))))

/-! ## Temporary-directory scope traces (`extract_linear16_audio`,
`run_vosk`) -/

/-- Filesystem events performed by the normalization helpers. -/
inductive FsEvent where
  | mkTempDir (d : String)
  | runFfmpeg (src dst : String)
  | readBytes (p : String)
  | openWav (p : String)
  | removeTree (d : String)
  | writeText (p : String) (content : String)
deriving DecidableEq

/-- Scope `with tempfile.TemporaryDirectory() as tmpdir:` — the directory is
created on entry and removed on exit, with the body's events in between. -/
def tempDirScope {α : Type} (name : String) (body : String → List FsEvent × α) :
    List FsEvent × α :=
  let r := body name
  (FsEvent.mkTempDir name :: r.1 ++ [FsEvent.removeTree name], r.2)

/-- Source `extract_linear16_audio(src, sample_rate)`, with the transcoder's output
bytes supplied by an oracle: convert into the scoped temporary directory
and read the bytes back **inside** the scope (`tmp_wav.read_bytes()` is the
value of the `with` block), returning the bytes, not the path. -/
def extract_linear16_audio (ffmpegOut : String → List Nat) (tmp : String)
    (src : String) : List FsEvent × List Nat :=
  tempDirScope tmp (fun d =>
    let wav := d ++ "/" ++ pathStem src ++ ".wav"
    ([FsEvent.runFfmpeg src wav, FsEvent.readBytes wav], ffmpegOut src))

/-- Source `run_vosk(clip, model)`: convert and transcribe inside the scoped
temporary directory (opening the wav there), then write the transcript —
a plain string held in memory — outside the scope. -/
def run_vosk_trace (wavOf : String → String) (transcribeOf : String → String)
    (tmp clip : String) : List FsEvent × String :=
  let scope := tempDirScope tmp (fun d =>
    let wav := d ++ "/" ++ pathStem clip ++ ".wav"
    ([FsEvent.runFfmpeg clip wav, FsEvent.openWav wav], transcribeOf (wavOf clip)))
  (scope.1 ++ [FsEvent.writeText ("data/result_vosk/" ++ pathStem clip ++ ".txt") scope.2],
    scope.2)

/-! ### Sorting lemmas -/

theorem insertPair_perm (a : Int × String) (l : List (Int × String)) :
    List.Perm (insertPair a l) (a :: l) := by
  induction l with
  | nil => exact List.Perm.refl _
  | cons b t ih =>
    by_cases h : a.1 ≤ b.1
    · simp [insertPair, h]
    · simp only [insertPair, if_neg h]
      exact (List.Perm.cons b ih).trans (List.Perm.swap a b t)

theorem sortPairs_perm (l : List (Int × String)) : List.Perm (sortPairs l) l := by
  induction l with
  | nil => exact List.Perm.refl _
  | cons a t ih =>
    exact (insertPair_perm a (sortPairs t)).trans (List.Perm.cons a ih)

theorem pairwise_insertPair (a : Int × String) {l : List (Int × String)}
    (h : l.Pairwise keyLe) : (insertPair a l).Pairwise keyLe := by
  induction l with
  | nil => simp [insertPair, keyLe]
  | cons b t ih =>
    rcases List.pairwise_cons.1 h with ⟨hb, ht⟩
    by_cases hab : a.1 ≤ b.1
    · simp only [insertPair, if_pos hab]
      refine List.pairwise_cons.2 ⟨?_, h⟩
      intro x hx
      rcases List.mem_cons.1 hx with rfl | hx
      · exact hab
      · exact le_trans hab (hb x hx)
    · simp only [insertPair, if_neg hab]
      refine List.pairwise_cons.2 ⟨?_, ih ht⟩
      intro x hx
      rcases List.mem_cons.1 ((insertPair_perm a t).mem_iff.1 hx) with rfl | hx
      · exact le_of_lt (lt_of_not_le hab)
      · exact hb x hx

theorem sortPairs_pairwise (l : List (Int × String)) :
    (sortPairs l).Pairwise keyLe := by
  induction l with
  | nil => simp [sortPairs]
  | cons a t ih => exact pairwise_insertPair a ih

/-! ### Selector lemmas -/

theorem mem_numberedTargets {dir : List String} {s : Int} {p : Int × String} :
    p ∈ numberedTargets dir s ↔
      p.2 ∈ dir ∧ globMYRmp4 p.2 = true ∧ parse_clip_id p.2 = some p.1 ∧ s ≤ p.1 := by
  unfold numberedTargets
  rw [List.mem_filterMap]
  constructor
  · rintro ⟨n, hn, hf⟩
    rcases List.mem_filter.1 hn with ⟨hmem, hglob⟩
    cases hp : parse_clip_id n with
    | none => simp only [hp] at hf; exact absurd hf (by simp)
    | some id =>
      simp only [hp] at hf
      by_cases hlt : id < s
      · rw [if_pos hlt] at hf; simp at hf
      · rw [if_neg hlt] at hf
        have := Option.some.inj hf
        subst this
        exact ⟨hmem, hglob, hp, Int.not_lt.1 hlt⟩
  · rintro ⟨hmem, hglob, hparse, hle⟩
    refine ⟨p.2, List.mem_filter.2 ⟨hmem, hglob⟩, ?_⟩
    simp only [hparse]
    rw [if_neg (Int.not_lt.2 hle)]

theorem filterMap_parse_map_snd {L : List (Int × String)}
    (h : ∀ p ∈ L, parse_clip_id p.2 = some p.1) :
    (L.map Prod.snd).filterMap parse_clip_id = L.map Prod.fst := by
  induction L with
  | nil => rfl
  | cons p t ih =>
    simp only [List.map_cons, List.filterMap_cons, h p (List.mem_cons_self p t)]
    rw [ih (fun q hq => h q (List.mem_cons_of_mem p hq))]

theorem pairwise_lt_of_pairwise_le_nodup {l : List Int}
    (hle : l.Pairwise (· ≤ ·)) (hnd : l.Nodup) : l.Pairwise (· < ·) := by
  induction l with
  | nil => exact List.Pairwise.nil
  | cons a t ih =>
    rcases List.pairwise_cons.1 hle with ⟨ha, ht⟩
    rcases List.nodup_cons.1 hnd with ⟨hna, htnd⟩
    refine List.pairwise_cons.2 ⟨?_, ih ht htnd⟩
    intro x hx
    exact lt_of_le_of_ne (ha x hx) (fun he => hna (he ▸ hx))

theorem numberedTargets_append (d₁ d₂ : List String) (s : Int) :
    numberedTargets (d₁ ++ d₂) s = numberedTargets d₁ s ++ numberedTargets d₂ s := by
  simp [numberedTargets, List.filter_append, List.filterMap_append]

/-! ## Claim C1: selector contract -/

/-- C1 counterexample: the claim "select returns exactly the files whose
parsed clipId is defined and ≥ minClipId, sorted strictly ascending" fails
on the code.  `ABC_7.mp4` has a defined clip id `7 ≥ 0` yet is excluded
(the glob `MYR_*.mp4` filters it out), and `MYR_5.mp4` / `MYR_05.mp4` both
parse to clip id `5`, so the returned ids `[5, 5]` are not strictly
ascending. -/
theorem select_targets_claim_counterexample :
    parse_clip_id "ABC_7.mp4" = some 7
    ∧ "ABC_7.mp4" ∉ select_targets ["ABC_7.mp4", "MYR_5.mp4", "MYR_05.mp4"] 0 3
    ∧ (select_targets ["ABC_7.mp4", "MYR_5.mp4", "MYR_05.mp4"] 0 3).filterMap parse_clip_id
        = [5, 5]
    ∧ ¬ ((5 : Int) < 5) := by decide

/-- C1 (amended): among the directory entries matching the `MYR_*.mp4`
pattern, `select_targets` returns exactly those whose parsed clip id is
defined and ≥ `start_id`, sorted weakly ascending by integer clip id
(strictly ascending when the parsed ids are pairwise distinct), truncated
to at most `limit` items, with length equal to `limit` whenever at least
`limit` qualifying clips exist. -/
theorem select_targets_amended_spec (dir : List String) (s : Int) (l : Nat) :
    (select_targets dir s l).length = min l (numberedTargets dir s).length
    ∧ (∀ n ∈ select_targets dir s l,
        n ∈ dir ∧ globMYRmp4 n = true ∧ ∃ i, parse_clip_id n = some i ∧ s ≤ i)
    ∧ ((select_targets dir s l).filterMap parse_clip_id).Pairwise (· ≤ ·)
    ∧ ((select_targets dir s l).filterMap parse_clip_id).length
        = (select_targets dir s l).length
    ∧ ((numberedTargets dir s).length ≤ l →
        List.Perm (select_targets dir s l) ((numberedTargets dir s).map Prod.snd))
    ∧ (((numberedTargets dir s).map Prod.fst).Nodup →
        ((select_targets dir s l).filterMap parse_clip_id).Pairwise (· < ·)) := by
  have hperm := sortPairs_perm (numberedTargets dir s)
  have hsorted := sortPairs_pairwise (numberedTargets dir s)
  have hTsub : List.Sublist ((sortPairs (numberedTargets dir s)).take l)
      (sortPairs (numberedTargets dir s)) := List.take_sublist _ _
  have hTmemN : ∀ p ∈ (sortPairs (numberedTargets dir s)).take l,
      p ∈ numberedTargets dir s := fun p hp => hperm.mem_iff.1 (hTsub.subset hp)
  have hTparse : ∀ p ∈ (sortPairs (numberedTargets dir s)).take l,
      parse_clip_id p.2 = some p.1 := fun p hp =>
    (mem_numberedTargets.1 (hTmemN p hp)).2.2.1
  have hsel : select_targets dir s l
      = ((sortPairs (numberedTargets dir s)).take l).map Prod.snd := rfl
  have hfm : (select_targets dir s l).filterMap parse_clip_id
      = ((sortPairs (numberedTargets dir s)).take l).map Prod.fst := by
    rw [hsel]; exact filterMap_parse_map_snd hTparse
  have hTle : (((sortPairs (numberedTargets dir s)).take l).map Prod.fst).Pairwise
      (· ≤ ·) :=
    List.pairwise_map.2 (hsorted.sublist hTsub)
  refine ⟨?_, ?_, ?_, ?_, ?_, ?_⟩
  · rw [hsel, List.length_map, List.length_take, hperm.length_eq]
  · intro n hn
    rw [hsel] at hn
    rcases List.mem_map.1 hn with ⟨p, hp, rfl⟩
    rcases mem_numberedTargets.1 (hTmemN p hp) with ⟨hmem, hglob, hparse, hge⟩
    exact ⟨hmem, hglob, p.1, hparse, hge⟩
  · rw [hfm]; exact hTle
  · rw [hfm, hsel, List.length_map, List.length_map]
  · intro h
    have hlen : (sortPairs (numberedTargets dir s)).length ≤ l := by
      rw [hperm.length_eq]; exact h
    rw [hsel, List.take_of_length_le hlen]
    exact hperm.map Prod.snd
  · intro hnd
    have hnd' : (((sortPairs (numberedTargets dir s)).take l).map Prod.fst).Nodup := by
      have h1 : List.Perm ((sortPairs (numberedTargets dir s)).map Prod.fst)
          ((numberedTargets dir s).map Prod.fst) := hperm.map _
      exact (h1.nodup_iff.2 hnd).sublist (hTsub.map Prod.fst)
    rw [hfm]
    exact pairwise_lt_of_pairwise_le_nodup hTle hnd'

/-- C1 witness: concrete instantiation of the amended selector contract. -/
theorem select_targets_amended_spec_witness :
    List.Perm (select_targets ["MYR_10.mp4", "MYR_9.mp4"] 9 5)
      ((numberedTargets ["MYR_10.mp4", "MYR_9.mp4"] 9).map Prod.snd)
    ∧ ((select_targets ["MYR_10.mp4", "MYR_9.mp4"] 9 5).filterMap parse_clip_id).Pairwise
        (· < ·) :=
  ⟨(select_targets_amended_spec ["MYR_10.mp4", "MYR_9.mp4"] 9 5).2.2.2.2.1 (by decide),
   (select_targets_amended_spec ["MYR_10.mp4", "MYR_9.mp4"] 9 5).2.2.2.2.2 (by decide)⟩

/-! ## Claim C2: the spec's scenario example -/

/-- C2 counterexample: on the scenario directory the code does **not**
return `[MYR_17388_y.mp4, MYR_17390_x.mp4]` — `int("17388_y")` and
`int("17390_x")` raise `ValueError` (an underscore must sit between
digits), so every one of the four names parses to `None`. -/
theorem scenario_counterexample :
    select_targets
        ["MYR_17390_x.mp4", "MYR_17388_y.mp4", "MYR_bad.mp4", "MYR_17395_z.mp4"]
        17388 2
      ≠ ["MYR_17388_y.mp4", "MYR_17390_x.mp4"] := by decide

/-- C2 (amended): for the scenario directory and criteria
`{minClipId := 17388, limit := 2}` the selection is empty — all four
filenames are malformed for the parser (the token after the first
underscore is not a valid integer literal), so each is excluded. -/
theorem scenario_amended :
    select_targets
        ["MYR_17390_x.mp4", "MYR_17388_y.mp4", "MYR_bad.mp4", "MYR_17395_z.mp4"]
        17388 2 = []
    ∧ parse_clip_id "MYR_17390_x.mp4" = none
    ∧ parse_clip_id "MYR_17388_y.mp4" = none
    ∧ parse_clip_id "MYR_bad.mp4" = none
    ∧ parse_clip_id "MYR_17395_z.mp4" = none := by decide

/-! ## Claim C8: malformed filenames are tolerated -/

/-- C8: a filename whose numeric token is absent or non-numeric parses to
`none` (the code catches `IndexError`/`ValueError`, so no exception
escapes) and its presence anywhere in the directory leaves the selection
unchanged. -/
theorem malformed_filename_tolerated (dir₁ dir₂ : List String) (name : String)
    (s : Int) (l : Nat) (h : parse_clip_id name = none) :
    select_targets (dir₁ ++ name :: dir₂) s l = select_targets (dir₁ ++ dir₂) s l := by
  have hsingle : numberedTargets [name] s = [] := by
    by_cases hg : globMYRmp4 name <;> simp [numberedTargets, hg, h]
  have hmain : numberedTargets (dir₁ ++ name :: dir₂) s
      = numberedTargets (dir₁ ++ dir₂) s := by
    have : name :: dir₂ = [name] ++ dir₂ := rfl
    rw [this, numberedTargets_append, numberedTargets_append, numberedTargets_append,
      hsingle, List.nil_append]
  simp [select_targets, hmain]

/-- C8 witness: inserting `MYR_bad.mp4` into a directory does not change
the selection. -/
theorem malformed_filename_tolerated_witness :
    select_targets (["MYR_1.mp4"] ++ "MYR_bad.mp4" :: []) 0 5
      = select_targets (["MYR_1.mp4"] ++ []) 0 5 :=
  malformed_filename_tolerated ["MYR_1.mp4"] [] "MYR_bad.mp4" 0 5 (by decide)

/-! ### Stripping and joining lemmas -/

theorem dropWhile_head_false {p : Char → Bool} {l : List Char} {c : Char}
    {cs : List Char} (h : l.dropWhile p = c :: cs) : p c = false := by
  induction l with
  | nil => simp at h
  | cons a t ih =>
    rw [List.dropWhile_cons] at h
    split at h
    · exact ih h
    · next hp =>
      injection h with h1 _
      subst h1
      simpa using hp

theorem pyStripChars_head {l : List Char} {c : Char} {cs : List Char}
    (h : pyStripChars l = c :: cs) : pyIsSpace c = false := by
  have hpre : (c :: cs) <+: l.dropWhile pyIsSpace := by
    rw [← h]
    have hsuf : ((l.dropWhile pyIsSpace).reverse.dropWhile pyIsSpace)
        <:+ (l.dropWhile pyIsSpace).reverse := List.dropWhile_suffix _
    have h2 := List.reverse_prefix.2 hsuf
    simpa [pyStripChars] using h2
  obtain ⟨t, ht⟩ := hpre
  have h3 : l.dropWhile pyIsSpace = c :: (cs ++ t) := by rw [← ht]; simp
  exact dropWhile_head_false h3

theorem pyStripChars_reverse_head {l : List Char} {c : Char} {cs : List Char}
    (h : (pyStripChars l).reverse = c :: cs) : pyIsSpace c = false := by
  have h2 : ((l.dropWhile pyIsSpace).reverse).dropWhile pyIsSpace = c :: cs := by
    rw [← h]; simp [pyStripChars]
  exact dropWhile_head_false h2

theorem pyStripChars_eq_self {l : List Char} {c₁ c₂ : Char} {cs₁ cs₂ : List Char}
    (hl : l = c₁ :: cs₁) (hr : l.reverse = c₂ :: cs₂)
    (h1 : pyIsSpace c₁ = false) (h2 : pyIsSpace c₂ = false) :
    pyStripChars l = l := by
  unfold pyStripChars
  have e1 : l.dropWhile pyIsSpace = l := by
    rw [hl, List.dropWhile_cons, if_neg (by simp [h1])]
  rw [e1]
  have e2 : l.reverse.dropWhile pyIsSpace = l.reverse := by
    rw [hr, List.dropWhile_cons, if_neg (by simp [h2])]
  rw [e2, List.reverse_reverse]

theorem pyStripChars_idem (l : List Char) :
    pyStripChars (pyStripChars l) = pyStripChars l := by
  cases hl : pyStripChars l with
  | nil => rfl
  | cons c cs =>
    cases hr : (c :: cs).reverse with
    | nil => simp at hr
    | cons c₂ cs₂ =>
      exact pyStripChars_eq_self rfl hr (pyStripChars_head hl)
        (pyStripChars_reverse_head
          (show (pyStripChars l).reverse = c₂ :: cs₂ by rw [hl]; exact hr))

theorem joinData_eq_head_append (sep : List Char) (x : List Char)
    (rest : List (List Char)) : ∃ t, joinData sep (x :: rest) = x ++ t := by
  cases rest with
  | nil => exact ⟨[], by simp [joinData]⟩
  | cons y t => exact ⟨sep ++ joinData sep (y :: t), by simp [joinData]⟩

theorem joinData_concat_reverse (sep : List Char) (init : List (List Char))
    (z : List Char) : ∃ t, (joinData sep (init ++ [z])).reverse = z.reverse ++ t := by
  induction init with
  | nil => exact ⟨[], by simp [joinData]⟩
  | cons x rest ih =>
    obtain ⟨tt, htt⟩ := ih
    have hcons : ∃ w ws, rest ++ [z] = w :: ws := by
      cases rest with
      | nil => exact ⟨z, [], rfl⟩
      | cons r rs => exact ⟨r, rs ++ [z], rfl⟩
    obtain ⟨w, ws, hw⟩ := hcons
    refine ⟨tt ++ (sep.reverse ++ x.reverse), ?_⟩
    have hj : joinData sep ((x :: rest) ++ [z])
        = x ++ sep ++ joinData sep (rest ++ [z]) := by
      rw [List.cons_append, hw]
      rfl
    rw [hj, List.reverse_append, List.reverse_append, htt]
    simp [List.append_assoc]

theorem pyStrip_sjoin_stripped (lines : List String)
    (h : ∀ x ∈ lines, pyStripChars x.data = x.data ∧ x.data ≠ [])
    (hne : lines ≠ []) :
    pyStrip (sjoin "\n" lines) = sjoin "\n" lines := by
  refine congrArg String.mk ?_
  cases lines with
  | nil => exact absurd rfl hne
  | cons x rest =>
    obtain ⟨t, ht⟩ := joinData_eq_head_append "\n".data x.data (rest.map String.data)
    rcases h x (List.mem_cons_self x rest) with ⟨hxs, hxne⟩
    cases hd : x.data with
    | nil => exact absurd hd hxne
    | cons c cs =>
      have h1 : pyIsSpace c = false := pyStripChars_head (by rw [hxs, hd])
      have hmapne : (x :: rest).map String.data ≠ [] := by simp
      obtain hmap | ⟨init, z', hz'⟩ := ((x :: rest).map String.data).eq_nil_or_concat
      · exact absurd hmap hmapne
      · rw [List.concat_eq_append] at hz'
        obtain ⟨z, hzmem, hzdata⟩ := by
          have hz'mem : z' ∈ (x :: rest).map String.data := by rw [hz']; simp
          exact List.mem_map.1 hz'mem
        rcases h z hzmem with ⟨hzs, hzne⟩
        cases hrz : z.data.reverse with
        | nil => simp at hrz; exact absurd hrz hzne
        | cons c₂ cs₂ =>
          have h2 : pyIsSpace c₂ = false :=
            pyStripChars_reverse_head
              (show (pyStripChars z.data).reverse = c₂ :: cs₂ by rw [hzs]; exact hrz)
          obtain ⟨t₂, ht₂⟩ := joinData_concat_reverse "\n".data init z'
          have hJ : joinData "\n".data ((x :: rest).map String.data)
              = c :: (cs ++ t) := by
            rw [show (x :: rest).map String.data = x.data :: rest.map String.data from rfl]
              at hz' ⊢
            rw [ht, hd]; rfl
          have hJr : (joinData "\n".data ((x :: rest).map String.data)).reverse
              = c₂ :: (cs₂ ++ t₂) := by
            rw [hz', ht₂, ← hzdata, hrz]; rfl
          exact pyStripChars_eq_self hJ hJr h1 h2

theorem pyStrip_pyStrip (s : String) : pyStrip (pyStrip s) = pyStrip s :=
  congrArg String.mk (pyStripChars_idem s.data)

/-! ### The structured dump is never empty -/

theorem pyJsonDumps_obj_ne_empty (kvs : List (String × JVal)) :
    pyJsonDumps (JVal.obj kvs) ≠ "" := by
  intro h
  have h3 := congrArg String.length h
  rw [pyJsonDumps] at h3
  rw [String.length_append, String.length_append] at h3
  have h4 : ("\x7b" : String).length = 1 := rfl
  have h5 : ("\x7d" : String).length = 1 := rfl
  have h6 : ("" : String).length = 0 := rfl
  rw [h4, h5, h6] at h3
  omega

/-! ## Claim C4: extraction fallback order -/

/-- C4: the extractor's ordered fallback chain.  (1) A payload whose
top-priority `"text"` key holds a string that is nonempty after stripping
yields that string, stripped — segments, even when present, are ignored.
(2) With `"text"` absent, a nonempty `"textData"` string wins the same
way.  (3) When no direct key yields text and a segments list with
(string-valued) text entries is present, the result is the newline-join of
those entries.  (4) When neither is usable, the result is the structured
dump of the whole payload, which is never the empty string. -/
theorem extract_transcript_fallback_order :
    (∀ (r : HttpResponse) (payload : List (String × JVal)) (t : String),
      r.jsonBody = some (JVal.obj payload) →
      jGet payload "text" = some (JVal.str t) → pyStrip t ≠ "" →
      extract_transcript r = some (pyStrip t))
    ∧ (∀ (r : HttpResponse) (payload : List (String × JVal)) (t : String),
      r.jsonBody = some (JVal.obj payload) →
      jGet payload "text" = none → jGet payload "textData" = some (JVal.str t) →
      pyStrip t ≠ "" →
      extract_transcript r = some (pyStrip t))
    ∧ (∀ (r : HttpResponse) (payload : List (String × JVal)) (segs : List JVal)
        (ts : List String),
      r.jsonBody = some (JVal.obj payload) →
      directLoop payload directTextKeys = none →
      jGet payload "segments" = some (JVal.arr segs) →
      segLines segs ≠ [] → strListOfJVals (segLines segs) = some ts →
      extract_transcript r = some (pyStrip (sjoin "\n" ts)))
    ∧ (∀ (r : HttpResponse) (payload : List (String × JVal)),
      r.jsonBody = some (JVal.obj payload) →
      directLoop payload directTextKeys = none →
      (∀ segs, jGet payload "segments" = some (JVal.arr segs) → segLines segs = []) →
      extract_transcript r = some (pyJsonDumps (JVal.obj payload))
        ∧ pyJsonDumps (JVal.obj payload) ≠ "") := by
  refine ⟨?_, ?_, ?_, ?_⟩
  · intro r payload t hj ht hne
    have hd : directLoop payload directTextKeys = some (pyStrip t) := by
      simp only [directTextKeys, directLoop, ht, if_neg hne]
    simp only [extract_transcript, hj, hd]
  · intro r payload t hj h0 ht hne
    have hd : directLoop payload directTextKeys = some (pyStrip t) := by
      simp only [directTextKeys, directLoop, h0, ht, if_neg hne]
    simp only [extract_transcript, hj, hd]
  · intro r payload segs ts hj hd hseg hlne hts
    cases hsl : segLines segs with
    | nil => exact absurd hsl hlne
    | cons a as =>
      rw [hsl] at hts
      simp only [extract_transcript, hj, hd, hseg, hsl, hts]
  · intro r payload hj hd hs
    refine ⟨?_, pyJsonDumps_obj_ne_empty payload⟩
    cases hseg : jGet payload "segments" with
    | none => simp only [extract_transcript, hj, hd, hseg]
    | some v =>
      cases v with
      | arr segs =>
        have hsl := hs segs hseg
        simp only [extract_transcript, hj, hd, hseg, hsl]
      | str s => simp only [extract_transcript, hj, hd, hseg]
      | num n => simp only [extract_transcript, hj, hd, hseg]
      | bool b => simp only [extract_transcript, hj, hd, hseg]
      | null => simp only [extract_transcript, hj, hd, hseg]
      | obj kvs => simp only [extract_transcript, hj, hd, hseg]

/-- C4 witness: the three fallback tiers on concrete payloads — direct
`"text"` beats present segments; segments join when no direct key matches;
the dump otherwise. -/
theorem extract_transcript_fallback_order_witness :
    extract_transcript
        ⟨200, "OK", "",
          some (JVal.obj [("text", JVal.str " hi "),
            ("segments", JVal.arr [JVal.obj [("text", JVal.str "seg")]])])⟩
      = some (pyStrip " hi ")
    ∧ extract_transcript
        ⟨200, "OK", "",
          some (JVal.obj [("segments",
            JVal.arr [JVal.obj [("text", JVal.str "a")],
              JVal.obj [("text", JVal.str "b")]])])⟩
      = some (pyStrip (sjoin "\n" ["a", "b"]))
    ∧ extract_transcript ⟨200, "OK", "", some (JVal.obj [("status", JVal.num 5)])⟩
      = some (pyJsonDumps (JVal.obj [("status", JVal.num 5)])) :=
  ⟨extract_transcript_fallback_order.1
     ⟨200, "OK", "",
       some (JVal.obj [("text", JVal.str " hi "),
         ("segments", JVal.arr [JVal.obj [("text", JVal.str "seg")]])])⟩
     [("text", JVal.str " hi "),
       ("segments", JVal.arr [JVal.obj [("text", JVal.str "seg")]])]
     " hi " rfl rfl (by decide),
   extract_transcript_fallback_order.2.2.1
     ⟨200, "OK", "",
       some (JVal.obj [("segments",
         JVal.arr [JVal.obj [("text", JVal.str "a")],
           JVal.obj [("text", JVal.str "b")]])])⟩
     [("segments",
       JVal.arr [JVal.obj [("text", JVal.str "a")], JVal.obj [("text", JVal.str "b")]])]
     [JVal.obj [("text", JVal.str "a")], JVal.obj [("text", JVal.str "b")]]
     ["a", "b"] rfl rfl rfl (by decide) rfl,
   (extract_transcript_fallback_order.2.2.2
     ⟨200, "OK", "", some (JVal.obj [("status", JVal.num 5)])⟩
     [("status", JVal.num 5)] rfl rfl
     (fun segs hsegs => by exact Option.noConfusion hsegs)).1⟩

/-! ## Claim C5: non-success HTTP status is a fatal rejection -/

/-- C5: a non-success HTTP status makes `run_clova` abort with a fatal
message (the spec's `Failure{kind: RemoteRejected}`; the single request is
never reissued) whose tail is exactly `_format_error`'s detail: the dumped
JSON error body when the body is decodable, else the stripped body text
when nonempty, else the reason phrase. -/
theorem run_clova_rejection (clip : String) (r : HttpResponse)
    (h : ¬ r.status < 400) :
    (∃ pre, run_clova clip r = some (ClovaOutcome.fatal (pre ++ format_error r)))
    ∧ (∀ p, r.jsonBody = some p → format_error r = pyJsonDumps p)
    ∧ (r.jsonBody = none → pyStrip r.body ≠ "" → format_error r = pyStrip r.body)
    ∧ (r.jsonBody = none → pyStrip r.body = "" → format_error r = r.reason) := by
  refine ⟨⟨"Clova Speech request failed for " ++ clip ++ " (" ++ toString r.status
      ++ " " ++ r.reason ++ "): ", ?_⟩, ?_, ?_, ?_⟩
  · have hok : respOk r = false := by simp [respOk, h]
    simp only [run_clova, hok, Bool.false_eq_true, if_false]
  · intro p hp
    simp [format_error, hp]
  · intro hn hne
    simp only [format_error, hn, if_neg hne]
  · intro hn he
    simp only [format_error, hn, if_pos he]

/-- C5 witness: a 404 with an empty undecodable body reports the reason
phrase; a 500 with a decodable JSON body reports the dumped body. -/
theorem run_clova_rejection_witness :
    format_error ⟨404, "Not Found", "", none⟩ = "Not Found"
    ∧ format_error ⟨500, "Server Error", "",
        some (JVal.obj [("error", JVal.str "bad")])⟩
      = pyJsonDumps (JVal.obj [("error", JVal.str "bad")]) :=
  ⟨(run_clova_rejection "MYR_17388.mp4" ⟨404, "Not Found", "", none⟩
      (by decide)).2.2.2 rfl rfl,
   (run_clova_rejection "MYR_17388.mp4"
      ⟨500, "Server Error", "", some (JVal.obj [("error", JVal.str "bad")])⟩
      (by decide)).2.1 _ rfl⟩

/-! ### Python dict lemmas -/

theorem jGet_eq_none_of_not_mem {d : List (String × JVal)} {k : String}
    (h : k ∉ d.map Prod.fst) : jGet d k = none := by
  induction d with
  | nil => rfl
  | cons kv rest ih =>
    simp only [List.map_cons, List.mem_cons, not_or] at h
    rw [jGet, if_neg (fun he => h.1 he.symm)]
    exact ih h.2

theorem jGet_append_of_none {d₁ : List (String × JVal)} {k : String}
    (d₂ : List (String × JVal)) (h : jGet d₁ k = none) :
    jGet (d₁ ++ d₂) k = jGet d₂ k := by
  induction d₁ with
  | nil => rfl
  | cons kv rest ih =>
    rw [jGet] at h
    by_cases hk : kv.1 = k
    · rw [if_pos hk] at h; exact Option.noConfusion h
    · rw [if_neg hk] at h
      rw [List.cons_append, jGet, if_neg hk]
      exact ih h

theorem jGet_append_of_some {d₁ : List (String × JVal)} {k : String} {v : JVal}
    (d₂ : List (String × JVal)) (h : jGet d₁ k = some v) :
    jGet (d₁ ++ d₂) k = some v := by
  induction d₁ with
  | nil => exact Option.noConfusion h
  | cons kv rest ih =>
    rw [jGet] at h
    by_cases hk : kv.1 = k
    · rw [if_pos hk] at h
      rw [List.cons_append, jGet, if_pos hk]
      exact h
    · rw [if_neg hk] at h
      rw [List.cons_append, jGet, if_neg hk]
      exact ih h

theorem jGet_setAll_self {d : List (String × JVal)} {k : String} (v : JVal)
    (h : (jGet d k).isSome) :
    jGet (d.map (fun kv => if kv.1 = k then (kv.1, v) else kv)) k = some v := by
  induction d with
  | nil => simp [jGet] at h
  | cons kv rest ih =>
    by_cases hk : kv.1 = k
    · simp [jGet, hk]
    · rw [jGet, if_neg hk] at h
      simp [jGet, hk, ih h]

theorem jGet_setAll_ne {d : List (String × JVal)} {k k' : String} (v : JVal)
    (h : k' ≠ k) :
    jGet (d.map (fun kv => if kv.1 = k then (kv.1, v) else kv)) k' = jGet d k' := by
  induction d with
  | nil => rfl
  | cons kv rest ih =>
    by_cases hk : kv.1 = k
    · have hk' : ¬ kv.1 = k' := by rw [hk]; exact fun he => h he.symm
      simp only [List.map_cons, if_pos hk, jGet]
      rw [if_neg hk', if_neg hk']
      exact ih
    · simp only [List.map_cons, if_neg hk, jGet]
      by_cases hk2 : kv.1 = k'
      · rw [if_pos hk2, if_pos hk2]
      · rw [if_neg hk2, if_neg hk2]
        exact ih

theorem jGet_dictSet_self (d : List (String × JVal)) (k : String) (v : JVal) :
    jGet (dictSet d k v) k = some v := by
  unfold dictSet
  by_cases h : (jGet d k).isSome
  · rw [if_pos h]; exact jGet_setAll_self v h
  · rw [if_neg h]
    have hn : jGet d k = none := by
      cases hj : jGet d k with
      | none => rfl
      | some w => rw [hj] at h; simp at h
    rw [jGet_append_of_none _ hn]
    simp [jGet]

theorem jGet_dictSet_ne (d : List (String × JVal)) (k : String) (v : JVal)
    (k' : String) (h : k' ≠ k) : jGet (dictSet d k v) k' = jGet d k' := by
  unfold dictSet
  by_cases hs : (jGet d k).isSome
  · rw [if_pos hs]; exact jGet_setAll_ne v h
  · rw [if_neg hs]
    cases hj : jGet d k' with
    | some w => exact jGet_append_of_some _ hj
    | none =>
      rw [jGet_append_of_none _ hj]
      simp only [jGet]
      rw [if_neg (fun he => h he.symm)]

theorem jGet_dictUpdate_of_none {e : List (String × JVal)} {k : String}
    (d : List (String × JVal)) (h : jGet e k = none) :
    jGet (dictUpdate d e) k = jGet d k := by
  induction e generalizing d with
  | nil => rfl
  | cons kv rest ih =>
    rw [jGet] at h
    by_cases hk : kv.1 = k
    · rw [if_pos hk] at h; exact Option.noConfusion h
    · rw [if_neg hk] at h
      rw [dictUpdate, ih _ h, jGet_dictSet_ne _ _ _ _ (fun he => hk he.symm)]

theorem jGet_dictUpdate_of_some {e : List (String × JVal)} {k : String} {v : JVal}
    (d : List (String × JVal)) (hnd : (e.map Prod.fst).Nodup)
    (h : jGet e k = some v) :
    jGet (dictUpdate d e) k = some v := by
  induction e generalizing d with
  | nil => exact Option.noConfusion h
  | cons kv rest ih =>
    rw [List.map_cons] at hnd
    rcases List.nodup_cons.1 hnd with ⟨hk0, hrest⟩
    rw [jGet] at h
    by_cases hk : kv.1 = k
    · rw [if_pos hk] at h
      have hnone : jGet rest k = none := by
        refine jGet_eq_none_of_not_mem (fun hmem => hk0 ?_)
        rw [hk]; exact hmem
      rw [dictUpdate, jGet_dictUpdate_of_none _ hnone, ← hk, ← h,
        jGet_dictSet_self]
    · rw [if_neg hk] at h
      rw [dictUpdate]
      exact ih _ hrest h

theorem jGet_fill_of_some {b : List (String × JVal)} {k₁ : String} {v : JVal}
    (k' : String) (v' : JVal) (h : jGet b k₁ = some v) :
    jGet (if (jGet b k').isSome then b else dictSet b k' v') k₁ = some v := by
  split
  · exact h
  · next hs =>
    have hk : k₁ ≠ k' := by
      intro he
      subst he
      rw [h] at hs
      simp at hs
    rw [jGet_dictSet_ne _ _ _ _ hk]
    exact h

theorem jGet_fill_self {b : List (String × JVal)} {k' : String} (v' : JVal)
    (h : jGet b k' = none) :
    jGet (if (jGet b k').isSome then b else dictSet b k' v') k' = some v' := by
  rw [h]
  simp only [Option.isSome_none, Bool.false_eq_true, if_false]
  exact jGet_dictSet_self b k' v'

theorem jGet_fill_ne {b : List (String × JVal)} {k' : String} (v' : JVal)
    {k₁ : String} (h : k₁ ≠ k') :
    jGet (if (jGet b k').isSome then b else dictSet b k' v') k₁ = jGet b k₁ := by
  split
  · rfl
  · exact jGet_dictSet_ne _ _ _ _ h

/-! ## Claim C6: request-parameter merge -/

/-- C6: with the optional arguments as `run_clova` passes them (`None`),
the parameter block built by `req_upload` merges the fixed base
(`language`, `completion`) with the caller's `default_params` so that
caller-supplied keys always win — including the protected keys — while
base values and the protected `wordAlignment` / `fullText` defaults are
only filled in when the key is absent, never overriding a caller value.
(Python dicts have unique keys, hence the `Nodup` hypothesis.) -/
theorem req_upload_merge_spec (opts : List (String × JVal)) (completion : String)
    (wa ft : Bool) (hnd : (opts.map Prod.fst).Nodup) :
    (∀ k v, jGet opts k = some v →
      jGet (req_upload_params opts completion none none none none wa ft none none) k
        = some v)
    ∧ (jGet opts "language" = none →
      jGet (req_upload_params opts completion none none none none wa ft none none)
        "language" = some (JVal.str "ko-KR"))
    ∧ (jGet opts "completion" = none →
      jGet (req_upload_params opts completion none none none none wa ft none none)
        "completion" = some (JVal.str completion))
    ∧ (jGet opts "wordAlignment" = none →
      jGet (req_upload_params opts completion none none none none wa ft none none)
        "wordAlignment" = some (JVal.bool wa))
    ∧ (jGet opts "fullText" = none →
      jGet (req_upload_params opts completion none none none none wa ft none none)
        "fullText" = some (JVal.bool ft)) := by
  simp only [req_upload_params]
  refine ⟨?_, ?_, ?_, ?_, ?_⟩
  · intro k v hv
    have h0 : jGet (dictUpdate [("language", JVal.str "ko-KR"),
        ("completion", JVal.str completion)] opts) k = some v :=
      jGet_dictUpdate_of_some _ hnd hv
    exact jGet_fill_of_some _ _ (jGet_fill_of_some _ _ h0)
  · intro h
    have h0 : jGet (dictUpdate [("language", JVal.str "ko-KR"),
        ("completion", JVal.str completion)] opts) "language"
        = some (JVal.str "ko-KR") := by
      rw [jGet_dictUpdate_of_none _ h]
      rfl
    exact jGet_fill_of_some _ _ (jGet_fill_of_some _ _ h0)
  · intro h
    have h0 : jGet (dictUpdate [("language", JVal.str "ko-KR"),
        ("completion", JVal.str completion)] opts) "completion"
        = some (JVal.str completion) := by
      rw [jGet_dictUpdate_of_none _ h]
      simp [jGet]
    exact jGet_fill_of_some _ _ (jGet_fill_of_some _ _ h0)
  · intro h
    have h0 : jGet (dictUpdate [("language", JVal.str "ko-KR"),
        ("completion", JVal.str completion)] opts) "wordAlignment" = none := by
      rw [jGet_dictUpdate_of_none _ h]
      simp [jGet]
    have h1 := jGet_fill_self (b := dictUpdate [("language", JVal.str "ko-KR"),
      ("completion", JVal.str completion)] opts) (JVal.bool wa) h0
    exact jGet_fill_of_some _ _ h1
  · intro h
    have h0 : jGet (dictUpdate [("language", JVal.str "ko-KR"),
        ("completion", JVal.str completion)] opts) "fullText" = none := by
      rw [jGet_dictUpdate_of_none _ h]
      simp [jGet]
    have h1 : jGet (if (jGet (dictUpdate [("language", JVal.str "ko-KR"),
        ("completion", JVal.str completion)] opts) "wordAlignment").isSome then
          dictUpdate [("language", JVal.str "ko-KR"),
            ("completion", JVal.str completion)] opts
        else dictSet (dictUpdate [("language", JVal.str "ko-KR"),
            ("completion", JVal.str completion)] opts) "wordAlignment"
          (JVal.bool wa)) "fullText" = none := by
      rw [jGet_fill_ne _ (by decide)]
      exact h0
    exact jGet_fill_self _ h1

/-- C6 witness: caller options override the base language and set
`wordAlignment`; the `fullText` default is filled in. -/
theorem req_upload_merge_spec_witness :
    jGet (req_upload_params [("language", JVal.str "en-US"),
        ("wordAlignment", JVal.bool false)] "sync" none none none none true true
        none none) "language" = some (JVal.str "en-US")
    ∧ jGet (req_upload_params [("language", JVal.str "en-US"),
        ("wordAlignment", JVal.bool false)] "sync" none none none none true true
        none none) "wordAlignment" = some (JVal.bool false)
    ∧ jGet (req_upload_params [("language", JVal.str "en-US"),
        ("wordAlignment", JVal.bool false)] "sync" none none none none true true
        none none) "fullText" = some (JVal.bool true) :=
  ⟨(req_upload_merge_spec [("language", JVal.str "en-US"),
      ("wordAlignment", JVal.bool false)] "sync" true true (by decide)).1
      "language" _ rfl,
   (req_upload_merge_spec [("language", JVal.str "en-US"),
      ("wordAlignment", JVal.bool false)] "sync" true true (by decide)).1
      "wordAlignment" _ rfl,
   (req_upload_merge_spec [("language", JVal.str "en-US"),
      ("wordAlignment", JVal.bool false)] "sync" true true (by decide)).2.2.2.2
      rfl⟩

/-! ## Claim C10: the client state is unchanged by `req_upload` -/

/-- C10: over any sequence of `req_upload` calls the client's stored state
(`invoke_url`, `secret`, `default_params`) is returned unchanged, and every
call's parameter block depends only on the initial client state and that
call's own arguments — so two calls with the same clip and arguments build
identical blocks regardless of how many calls came between them. -/
theorem client_state_frame (c : ClovaSpeechClient) (calls : List (String × String)) :
    (req_upload_callSeq c calls).1 = c
    ∧ (req_upload_callSeq c calls).2
      = calls.map (fun fc =>
          (c.req_upload fc.1 fc.2 none none none none true true none none).2) := by
  induction calls with
  | nil => exact ⟨rfl, rfl⟩
  | cons fc rest ih =>
    refine ⟨?_, ?_⟩
    · simp only [req_upload_callSeq]
      exact ih.1
    · simp only [req_upload_callSeq, List.map_cons]
      have hc : (c.req_upload fc.1 fc.2 none none none none true true none none).1
          = c := rfl
      rw [hc, ih.2]

/-! ### Google / Vosk transcript lemmas -/

theorem googleLines_eq (results : List (List String)) :
    googleLines results
      = (firstAlts results).map
          (fun fs => (fs.map pyStrip).filter (fun s => !(s == ""))) := by
  induction results with
  | nil => rfl
  | cons alts rest ih =>
    cases alts with
    | nil => rfl
    | cons t ts =>
      simp only [googleLines, firstAlts, ih]
      cases hfa : firstAlts rest with
      | none => rfl
      | some fs =>
        by_cases hts : pyStrip t = ""
        · simp [hts, List.filter_cons]
        · simp [hts, List.filter_cons]

theorem stripped_filter_mem {fs : List String} {x : String}
    (hx : x ∈ (fs.map pyStrip).filter (fun s => !(s == ""))) :
    pyStripChars x.data = x.data ∧ x.data ≠ [] := by
  rcases List.mem_filter.1 hx with ⟨hmem, hpred⟩
  rcases List.mem_map.1 hmem with ⟨f, _, rfl⟩
  refine ⟨pyStripChars_idem f.data, ?_⟩
  intro hd
  have he : pyStrip f = "" := String.ext hd
  simp [he] at hpred

theorem sjoin_cons_ne_empty {x : String} (rest : List String) (hx : x.data ≠ []) :
    sjoin "\n" (x :: rest) ≠ "" := by
  intro h
  obtain ⟨t, ht⟩ := joinData_eq_head_append "\n".data x.data (rest.map String.data)
  have hdata := congrArg String.data h
  rw [show (sjoin "\n" (x :: rest)).data
      = joinData "\n".data (x.data :: rest.map String.data) from rfl, ht] at hdata
  rcases List.append_eq_nil.1 hdata with ⟨h1, _⟩
  exact hx h1

theorem google_transcript_of_empty {results : List (List String)}
    (h : googleLines results = some []) :
    google_transcript results = some "[No transcript returned]" := by
  rw [google_transcript, h]
  rfl

theorem google_transcript_of_spec {results : List (List String)} {s : String}
    (hs : specGoogleConcat results = some s) (hne : s ≠ "") :
    google_transcript results = some s := by
  cases hfa : firstAlts results with
  | none => rw [specGoogleConcat, hfa] at hs; exact Option.noConfusion hs
  | some fs =>
    have hsval : s = sjoin "\n" ((fs.map pyStrip).filter (fun s => !(s == ""))) := by
      rw [specGoogleConcat, hfa] at hs
      exact (Option.some.inj hs).symm
    have hgl : googleLines results
        = some ((fs.map pyStrip).filter (fun s => !(s == ""))) := by
      rw [googleLines_eq, hfa]
      rfl
    have hlinesne : (fs.map pyStrip).filter (fun s => !(s == "")) ≠ [] := by
      intro h0
      rw [hsval, h0] at hne
      exact hne rfl
    have hstrip : pyStrip (sjoin "\n" ((fs.map pyStrip).filter (fun s => !(s == ""))))
        = sjoin "\n" ((fs.map pyStrip).filter (fun s => !(s == ""))) :=
      pyStrip_sjoin_stripped _ (fun x hx => stripped_filter_mem hx) hlinesne
    rw [google_transcript, hgl]
    simp only [Option.map_some']
    rw [hstrip, if_neg (by rw [← hsval]; exact hne), hsval]

theorem specGoogleConcat_empty_lines {results : List (List String)}
    (h0 : specGoogleConcat results = some "") :
    googleLines results = some [] := by
  cases hfa : firstAlts results with
  | none => rw [specGoogleConcat, hfa] at h0; exact Option.noConfusion h0
  | some fs =>
    have hjoin : sjoin "\n" ((fs.map pyStrip).filter (fun s => !(s == ""))) = "" := by
      rw [specGoogleConcat, hfa] at h0
      exact Option.some.inj h0
    have hlines : (fs.map pyStrip).filter (fun s => !(s == "")) = [] := by
      cases hl : (fs.map pyStrip).filter (fun s => !(s == "")) with
      | nil => rfl
      | cons x rest =>
        exfalso
        have hxne : x.data ≠ [] :=
          (stripped_filter_mem (hl ▸ List.mem_cons_self x rest)).2
        exact sjoin_cons_ne_empty rest hxne (by rw [← hl]; exact hjoin)
    rw [googleLines_eq, hfa, Option.map_some', hlines]

theorem vosk_transcribe_all_empty {pieces : List String} {final : String}
    (hp : ∀ p ∈ pieces, p = "") (hf : final = "") :
    vosk_transcribe pieces final = "" := by
  subst hf
  have hfil : (pieces ++ [""]).filter (fun s => !(s == "")) = [] := by
    rw [List.filter_eq_nil_iff]
    intro a ha
    rcases List.mem_append.1 ha with h1 | h2
    · simp [hp a h1]
    · simp at h2
      simp [h2]
  rw [vosk_transcribe, hfil]
  rfl

/-! ## Claim C3: empty recognition results -/

/-- C3 counterexample: the Vosk variant does **not** substitute the
sentinel — with no recognized text `transcribe` returns the empty string,
contradicting "for every backend variant … text is the explicit sentinel
value … never an empty string". -/
theorem vosk_empty_counterexample :
    vosk_transcribe [] "" = ""
    ∧ vosk_transcribe [] "" ≠ "[No transcript returned]" := by
  constructor
  · rfl
  · decide

/-- C3 (amended): a backend response with zero recognized text still
yields a success, never a failure, but the sentinel is backend-specific:
the Google backend substitutes `"[No transcript returned]"`, while the
Vosk backend writes the empty string as its (successful) transcript. -/
theorem empty_transcript_amended :
    (∀ results : List (List String), googleLines results = some [] →
      google_transcript results = some "[No transcript returned]")
    ∧ (∀ (pieces : List String) (final : String),
      (∀ p ∈ pieces, p = "") → final = "" →
      vosk_transcribe pieces final = "") :=
  ⟨fun _ h => google_transcript_of_empty h,
   fun _ _ hp hf => vosk_transcribe_all_empty hp hf⟩

/-- C3 witness: a whitespace-only Google response yields the sentinel; an
all-empty Vosk recognition yields the empty transcript. -/
theorem empty_transcript_amended_witness :
    google_transcript [[" "]] = some "[No transcript returned]"
    ∧ vosk_transcribe ["", ""] "" = "" :=
  ⟨empty_transcript_amended.1 [[" "]] (by decide),
   empty_transcript_amended.2 ["", ""] "" (by decide) rfl⟩

/-! ## Claim C7: bounded wait and transcript concatenation -/

/-- C7 counterexample: when every returned segment is empty the success
transcript is the sentinel, not the (empty) concatenation the claim
describes. -/
theorem google_sentinel_counterexample :
    specGoogleConcat [[""]] = some ""
    ∧ run_google_speech true ⟨0, [[""]]⟩
        = some (GoogleOutcome.success "[No transcript returned]")
    ∧ ("[No transcript returned]" : String) ≠ "" := by decide

/-- C7 (amended): on the long-running path the wait is bounded by 900 time
units — exceeding it yields the timeout failure — and an in-time success
carries the concatenation of every result segment's first alternative,
trimmed, joined by newlines with empty segments skipped, **except** that
when that concatenation is empty the transcript is the sentinel
`"[No transcript returned]"` instead. -/
theorem run_google_amended_spec (op : GoogleOperation) :
    (900 < op.delay → run_google_speech true op = some GoogleOutcome.timeout)
    ∧ (op.delay ≤ 900 → ∀ s, specGoogleConcat op.results = some s → s ≠ "" →
        run_google_speech true op = some (GoogleOutcome.success s))
    ∧ (op.delay ≤ 900 → specGoogleConcat op.results = some "" →
        run_google_speech true op
          = some (GoogleOutcome.success "[No transcript returned]")) := by
  refine ⟨?_, ?_, ?_⟩
  · intro h
    simp [run_google_speech, h]
  · intro hd s hs hne
    have hnotlt : ¬ 900 < op.delay := by omega
    rw [run_google_speech, if_pos rfl, if_neg hnotlt,
      google_transcript_of_spec hs hne]
    rfl
  · intro hd h0
    have hnotlt : ¬ 900 < op.delay := by omega
    rw [run_google_speech, if_pos rfl, if_neg hnotlt,
      google_transcript_of_empty (specGoogleConcat_empty_lines h0)]
    rfl

/-- C7 witness: a slow operation times out; a fast one returns the
newline-joined first alternatives with the empty segment skipped. -/
theorem run_google_amended_spec_witness :
    run_google_speech true ⟨1000, [["hello"]]⟩ = some GoogleOutcome.timeout
    ∧ run_google_speech true ⟨100, [["hello"], [" "], [" world "]]⟩
      = some (GoogleOutcome.success "hello\nworld") :=
  ⟨(run_google_amended_spec ⟨1000, [["hello"]]⟩).1 (by decide),
   (run_google_amended_spec ⟨100, [["hello"], [" "], [" world "]]⟩).2.1
     (by decide) "hello\nworld" (by decide) (by decide)⟩

/-! ## Claim C9: the normalized payload is read inside the scope -/

/-- C9: `extract_linear16_audio` returns the converted **bytes** — read
strictly before the scoped temporary directory is removed, which is the
last event of its trace — and `run_vosk` likewise opens and consumes the
temporary wav inside the scope, with no read or open of any file after the
cleanup (only the in-memory transcript is written out). -/
theorem normalized_audio_scope_safety (ffmpegOut : String → List Nat)
    (wavOf transcribeOf : String → String) (tmp src clip : String) :
    (∃ pre, (extract_linear16_audio ffmpegOut tmp src).1
        = pre ++ [FsEvent.removeTree tmp]
      ∧ FsEvent.readBytes (tmp ++ "/" ++ pathStem src ++ ".wav") ∈ pre
      ∧ (extract_linear16_audio ffmpegOut tmp src).2 = ffmpegOut src)
    ∧ (∃ pre post, (run_vosk_trace wavOf transcribeOf tmp clip).1
        = pre ++ FsEvent.removeTree tmp :: post
      ∧ FsEvent.openWav (tmp ++ "/" ++ pathStem clip ++ ".wav") ∈ pre
      ∧ ∀ e ∈ post,
          (∀ p, e ≠ FsEvent.readBytes p) ∧ (∀ p, e ≠ FsEvent.openWav p)) := by
  constructor
  · refine ⟨[FsEvent.mkTempDir tmp,
      FsEvent.runFfmpeg src (tmp ++ "/" ++ pathStem src ++ ".wav"),
      FsEvent.readBytes (tmp ++ "/" ++ pathStem src ++ ".wav")], rfl, ?_, rfl⟩
    simp
  · refine ⟨[FsEvent.mkTempDir tmp,
      FsEvent.runFfmpeg clip (tmp ++ "/" ++ pathStem clip ++ ".wav"),
      FsEvent.openWav (tmp ++ "/" ++ pathStem clip ++ ".wav")],
      [FsEvent.writeText ("data/result_vosk/" ++ pathStem clip ++ ".txt")
        (transcribeOf (wavOf clip))], rfl, ?_, ?_⟩
    · simp
    · intro e he
      rw [List.mem_singleton] at he
      subst he
      exact ⟨fun p h => FsEvent.noConfusion h, fun p h => FsEvent.noConfusion h⟩

end STT
